import Mathlib

/-!
Verification of the training driver of an asynchronous-SGD repository
(`src/train.py`).  The definitions below are shallow embeddings of the
script's arithmetic and control flow: Python integers become `Nat`,
real-valued quantities become `ℚ`, tensors become `List ℚ`, and the
in-place tensor operations of the training loop are made explicit.
-/

/-! ## Worker scheduling (train, src/train.py lines 174-197) -/

/-- Effective iteration for loader index `i`: `i // batch_accumulate_num`
(src/train.py lines 176, 196, 197). -/
def effectiveIteration (i ban : Nat) : Nat := i / ban

/-- Round-robin worker for loader index `i`:
`(i // batch_accumulate_num) % workers_number` (src/train.py line 176). -/
def currentWorker (i ban wn : Nat) : Nat := (i / ban) % wn

/-- Staleness factor passed to `push` (src/train.py line 196):
`(i // batch_accumulate_num - current_worker) / workers_number + 1`.
The division is exact (the numerator is a multiple of `workers_number`),
so modelling it as rational division is faithful to the script. -/
def tau (i ban wn : Nat) : ℚ :=
  ((effectiveIteration i ban - currentWorker i ban wn : Nat) : ℚ) / (wn : ℚ) + 1

/-! ## Loss recording (train, src/train.py lines 186 and 192) -/

/-- The loss after the in-place `loss.div_(batch_accumulate_num)`
(src/train.py line 186). -/
def lossAfterDiv (loss : ℚ) (ban : Nat) : ℚ := loss / (ban : ℚ)

/-- The value recorded into the training-loss meter:
`loss.data[0] * batch_accumulate_num` after the in-place division
(src/train.py line 192). -/
def recordedLoss (loss : ℚ) (ban : Nat) : ℚ := lossAfterDiv loss ban * (ban : ℚ)

/-! ## AverageMeter (src/train.py lines 289-303) -/

/-- `AverageMeter`: computes and stores the average and current value. -/
structure AverageMeter where
  avg : ℚ
  sum : ℚ
  count : Nat
deriving DecidableEq

/-- `AverageMeter.reset` (src/train.py lines 295-298). -/
def AverageMeter.reset : AverageMeter := { avg := 0, sum := 0, count := 0 }

/-- `AverageMeter.update(val, n)` (src/train.py lines 300-303). -/
def AverageMeter.update (m : AverageMeter) (val : ℚ) (n : Nat) : AverageMeter :=
  { avg := (m.sum + val * (n : ℚ)) / ((m.count + n : Nat) : ℚ)
    sum := m.sum + val * (n : ℚ)
    count := m.count + n }

/-- A sequence of `update` calls, first element first. -/
def AverageMeter.updates (m : AverageMeter) (l : List (ℚ × Nat)) : AverageMeter :=
  l.foldl (fun acc p => acc.update p.1 p.2) m

/-! ## Weight decay (wd_pre_step, src/train.py lines 160-164) -/

/-- The module classes the script distinguishes: `wd_pre_step` touches
only `nn.Conv2d` and `nn.Linear` modules. -/
inductive ModuleKind
  | conv2d
  | linear
  | batchNorm2d
  | other
deriving DecidableEq, Inhabited

/-- A module of the model: its class, its weight tensor and bias tensor,
and their gradient tensors. -/
structure ModuleState where
  kind : ModuleKind
  weight : List ℚ
  weightGrad : List ℚ
  bias : List ℚ
  biasGrad : List ℚ
deriving DecidableEq, Inhabited

/-- Pointwise `g.add_(c * w)` on a tensor (torch in-place add). -/
def addScaled (g w : List ℚ) (c : ℚ) : List ℚ :=
  List.zipWith (fun gv wv => gv + c * wv) g w

/-- Effect of `wd_pre_step` on a single module (src/train.py lines 162-164):
`m.weight.grad.add_(weight_decay * m.weight)` only when the module is a
`Conv2d` or a `Linear`; every other tensor is untouched. -/
def wd_pre_step_module (wd : ℚ) (m : ModuleState) : ModuleState :=
  match m.kind with
  | ModuleKind.conv2d => { m with weightGrad := addScaled m.weightGrad m.weight wd }
  | ModuleKind.linear => { m with weightGrad := addScaled m.weightGrad m.weight wd }
  | _ => m

/-- `wd_pre_step(model, weight_decay)` (src/train.py lines 160-164),
iterating over the model's modules. -/
def wd_pre_step (wd : ℚ) (model : List ModuleState) : List ModuleState :=
  model.map (wd_pre_step_module wd)

/-! ## Gradient clipping gate (train, src/train.py lines 189-190) -/

/-- The clipping step of the training loop: `clip_grad_norm` (abstracted
as `clip`, an arbitrary transformation of the gradient vector) is invoked
only under `grad_clip < 1000` (src/train.py lines 189-190). -/
def clipGate (grad_clip : ℚ) (clip : List ℚ → List ℚ) (grads : List ℚ) : List ℚ :=
  if grad_clip < 1000 then clip grads else grads

/-! ## Pull/push protocol of the training loop (src/train.py lines 174-198) -/

/-- Observable server/statistics interactions of the training loop. -/
inductive Event
  | pull (w : Nat)
  | push (w : Nat) (iteration : Nat)
  | saveStepNorm
deriving DecidableEq

/-- The interactions performed at loader index `i` (src/train.py lines
175-198): a `pull` of the round-robin worker when
`i % batch_accumulate_num == 0`, and a `push` of that worker at effective
iteration `i // batch_accumulate_num` followed by `save_step_norm` when
`i % batch_accumulate_num == batch_accumulate_num - 1`. -/
def stepEvents (ban wn i : Nat) : List Event :=
  (if i % ban = 0 then [Event.pull (currentWorker i ban wn)] else [])
    ++ (if i % ban = ban - 1 then
          [Event.push (currentWorker i ban wn) (effectiveIteration i ban), Event.saveStepNorm]
        else [])

/-- The interactions of gradient-accumulation group `g`, i.e. of loader
indices `g * ban, ..., g * ban + (ban - 1)`. -/
def groupTrace (ban wn g : Nat) : List Event :=
  (List.range ban).flatMap (fun k => stepEvents ban wn (g * ban + k))

/-- The interactions of a whole epoch of `n` loader batches. -/
def trainTrace (ban wn n : Nat) : List Event :=
  (List.range n).flatMap (stepEvents ban wn)

/-! ## Checkpoint resume (main, src/train.py lines 54-65) -/

/-- The contents of a checkpoint relevant to resume: the epoch, the name
set of the saved `state_dict`, and the `workers_num` the pickled server
was configured with. -/
structure CheckpointFile where
  epoch : Nat
  stateDictNames : List String
  serverWorkersNum : Nat
deriving DecidableEq

/-- The run's configuration at resume time: the requested `workers_num`
and the parameter names of the currently configured model. -/
structure RunConfig where
  workersNum : Nat
  modelNames : List String
deriving DecidableEq

/-- The state adopted by `main` after a successful resume. -/
structure RestoredRun where
  startEpoch : Nat
  serverWorkersNum : Nat
  modelNames : List String
deriving DecidableEq

/-- Resume block of `main` (src/train.py lines 54-65): `args.start_epoch`
and `server` are taken from the checkpoint with no validation whatsoever,
then `model.load_state_dict(checkpoint['state_dict'])` runs; the latter
(torch, strict mode) raises only when the state-dict name set differs from
the model's (`none` here). No `IncompatibleState` check exists anywhere in
the script, and the adopted server keeps whatever `workers_num` it was
pickled with. -/
def resumeFromCheckpoint (cfg : RunConfig) (ckpt : CheckpointFile) : Option RestoredRun :=
  if ckpt.stateDictNames = cfg.modelNames then
    some { startEpoch := ckpt.epoch
           serverWorkersNum := ckpt.serverWorkersNum
           modelNames := cfg.modelNames }
  else
    none

/-! ## Learning-rate rescaling (main, src/train.py line 77, the
sync-to-async reconfiguration block kept in the source as comments) -/

/-- `server._lr = args.lr * np.sqrt((args.workers_num * args.batch_size)
// batch_baseline) / args.workers_num` (src/train.py line 77).  The
argument of `np.sqrt` is the integer `(workers_num * batch_size) //
baseline`; `Nat.sqrt` coincides with `np.sqrt` on the perfect squares at
issue. -/
def scaledLr (lr : ℚ) (workers_num batch_size baseline : Nat) : ℚ :=
  lr * (Nat.sqrt ((workers_num * batch_size) / baseline) : ℚ) / (workers_num : ℚ)

/-! ## Snapshot copying (get_model_weights / get_model_gradients,
src/train.py lines 244-255) -/

/-- The tensor heap: tensors are mutable cells addressed by index, so
aliasing between the live model and returned snapshots is explicit. -/
abbrev Store := List (List ℚ)

/-- A tensor reference. -/
abbrev Addr := Nat

/-- Dereference a tensor. -/
def readTensor (st : Store) (a : Addr) : List ℚ := st.getD a []

/-- torch `.clone()`: allocate a fresh cell holding a copy of the values;
the clone shares no storage with the original. -/
def cloneTensor (st : Store) (a : Addr) : Store × Addr :=
  (st ++ [readTensor st a], st.length)

/-- A named parameter of the live model: references to its weight tensor
and to its gradient tensor. -/
structure ParamRef where
  name : String
  weightAddr : Addr
  gradAddr : Addr

/-- The live model, as `model.named_parameters()` enumerates it. -/
abbrev ModelRefs := List ParamRef

/-- A dict of named tensor references, as returned across the server
boundary. -/
abbrev ParameterSet := List (String × Addr)

/-- Common shape of `get_model_weights` and `get_model_gradients`: walk
`named_parameters()` and store a `.clone()` of the projected tensor under
the parameter's name. -/
def get_params_by (proj : ParamRef → Addr) : Store → ModelRefs → Store × ParameterSet
  | st, [] => (st, [])
  | st, p :: rest =>
      let c := cloneTensor st (proj p)
      let r := get_params_by proj c.1 rest
      (r.1, (p.name, c.2) :: r.2)

/-- `get_model_weights(model)` (src/train.py lines 251-255):
`weights[name] = weight.clone()` for every named parameter. -/
def get_model_weights (st : Store) (model : ModelRefs) : Store × ParameterSet :=
  get_params_by (fun p => p.weightAddr) st model

/-- `get_model_gradients(model)` (src/train.py lines 244-248):
`gradients[name] = weight.grad.clone()` for every named parameter. -/
def get_model_gradients (st : Store) (model : ModelRefs) : Store × ParameterSet :=
  get_params_by (fun p => p.gradAddr) st model

/-- An in-place mutation of the tensor at address `a` (what `backward`,
`zero_grad`, `add_` or `div_` do to a live tensor). -/
def mutateTensor (st : Store) (a : Addr) (f : List ℚ → List ℚ) : Store :=
  st.set a (f (readTensor st a))

/-- Read every tensor of a returned dict. -/
def readParameterSet (st : Store) (ps : ParameterSet) : List (String × List ℚ) :=
  ps.map (fun q => (q.1, readTensor st q.2))

lemma AverageMeter.sum_updates (m : AverageMeter) (l : List (ℚ × Nat)) :
    (m.updates l).sum = m.sum + (l.map (fun p => p.1 * (p.2 : ℚ))).sum := by
  induction l generalizing m with
  | nil => simp [AverageMeter.updates]
  | cons p rest ih =>
      simp only [AverageMeter.updates, List.foldl_cons, List.map_cons, List.sum_cons]
      have := ih (m.update p.1 p.2)
      simp only [AverageMeter.updates] at this
      rw [this]
      simp [AverageMeter.update]
      ring

lemma AverageMeter.count_updates (m : AverageMeter) (l : List (ℚ × Nat)) :
    (m.updates l).count = m.count + (l.map (fun p => p.2)).sum := by
  induction l generalizing m with
  | nil => simp [AverageMeter.updates]
  | cons p rest ih =>
      simp only [AverageMeter.updates, List.foldl_cons, List.map_cons, List.sum_cons]
      have := ih (m.update p.1 p.2)
      simp only [AverageMeter.updates] at this
      rw [this]
      simp [AverageMeter.update]
      ring

lemma AverageMeter.avg_updates (m : AverageMeter) (l : List (ℚ × Nat)) :
    (m.updates l).avg =
      if l = [] then m.avg else (m.updates l).sum / ((m.updates l).count : ℚ) := by
  induction l generalizing m with
  | nil => simp [AverageMeter.updates]
  | cons p rest ih =>
      simp only [AverageMeter.updates, List.foldl_cons]
      have := ih (m.update p.1 p.2)
      simp only [AverageMeter.updates] at this
      rw [this]
      by_cases h : rest = []
      · subst h
        simp [AverageMeter.update, AverageMeter.updates]
      · simp [h]

lemma group_index_div (ban g k : Nat) (hk : k < ban) : (g * ban + k) / ban = g := by
  rw [Nat.mul_comm g ban, Nat.mul_add_div (by omega), Nat.div_eq_of_lt hk]
  omega

lemma group_index_mod (ban g k : Nat) (hk : k < ban) : (g * ban + k) % ban = k := by
  rw [Nat.mul_comm g ban, Nat.mul_add_mod]
  exact Nat.mod_eq_of_lt hk

lemma range_flatMap_first {α : Type} (A : List α) (n : Nat) (hn : 1 ≤ n) :
    (List.range n).flatMap (fun k => if k = 0 then A else []) = A := by
  induction n with
  | zero => omega
  | succ m ih =>
      rw [List.range_succ, List.flatMap_append]
      by_cases hm : m = 0
      · subst hm
        simp
      · rw [ih (by omega)]
        simp [hm]

lemma range_flatMap_first_last {α : Type} (A B : List α) (n : Nat) (hn : 1 ≤ n) :
    (List.range n).flatMap
        (fun k => (if k = 0 then A else []) ++ (if k = n - 1 then B else [])) = A ++ B := by
  obtain ⟨m, rfl⟩ : ∃ m, n = m + 1 := ⟨n - 1, by omega⟩
  rw [List.range_succ, List.flatMap_append]
  by_cases hm : m = 0
  · subst hm
    simp
  · have hmid : (List.range m).flatMap
          (fun k => (if k = 0 then A else []) ++ (if k = m + 1 - 1 then B else []))
        = (List.range m).flatMap (fun k => if k = 0 then A else []) := by
      apply List.flatMap_congr
      intro k hk
      rw [List.mem_range] at hk
      rw [if_neg (by omega : ¬ k = m + 1 - 1), List.append_nil]
    rw [hmid, range_flatMap_first A m (by omega)]
    simp [hm]

lemma stepEvents_in_group (ban wn g k : Nat) (hk : k < ban) :
    stepEvents ban wn (g * ban + k)
      = (if k = 0 then [Event.pull (g % wn)] else [])
        ++ (if k = ban - 1 then [Event.push (g % wn) g, Event.saveStepNorm] else []) := by
  unfold stepEvents currentWorker effectiveIteration
  rw [group_index_div ban g k hk, group_index_mod ban g k hk]

/-- C1: the staleness factor is
`(effective_iteration - worker_last_sync) / workers_num + 1` with the
round-robin worker index as the last-sync point, the division is exact
(it equals `effective_iteration // workers_num + 1`), and `tau >= 1`
holds for every loader index. -/
theorem tau_formula_and_ge_one (i ban wn : Nat) (hwn : 1 ≤ wn) :
    tau i ban wn
        = ((effectiveIteration i ban - currentWorker i ban wn : Nat) : ℚ) / (wn : ℚ) + 1
      ∧ tau i ban wn = ((effectiveIteration i ban / wn : Nat) : ℚ) + 1
      ∧ 1 ≤ tau i ban wn := by
  have hwn0 : (0 : ℚ) < (wn : ℚ) := by exact_mod_cast hwn
  have hsub : effectiveIteration i ban - currentWorker i ban wn
      = wn * (effectiveIteration i ban / wn) := by
    have hcw : currentWorker i ban wn = effectiveIteration i ban % wn := rfl
    have := Nat.mod_add_div (effectiveIteration i ban) wn
    omega
  refine ⟨rfl, ?_, ?_⟩
  · unfold tau
    rw [hsub]
    push_cast
    rw [mul_comm, mul_div_assoc, div_self (ne_of_gt hwn0), mul_one]
  · unfold tau
    have hnum : (0 : ℚ) ≤ ((effectiveIteration i ban - currentWorker i ban wn : Nat) : ℚ) := by
      positivity
    have : (0 : ℚ) ≤ ((effectiveIteration i ban - currentWorker i ban wn : Nat) : ℚ) / (wn : ℚ) :=
      div_nonneg hnum (le_of_lt hwn0)
    linarith

/-- Witness for C1 at `i = 7`, `ban = 2`, `wn = 3`. -/
theorem tau_formula_and_ge_one_witness :
    1 ≤ 3 ∧ 1 ≤ tau 7 2 3 :=
  ⟨by decide, (tau_formula_and_ge_one 7 2 3 (by decide)).2.2⟩

/-- C4: worker assignment is round-robin: every loader index in
gradient-accumulation group `g` uses worker `g % workers_num`, and the
worker of the next group is the successor modulo `workers_num`, so
groups cycle through `0, 1, ..., workers_num - 1, 0, 1, ...`. -/
theorem currentWorker_round_robin (ban wn g k : Nat) (hban : 1 ≤ ban) (hk : k < ban) :
    currentWorker (g * ban + k) ban wn = g % wn
      ∧ currentWorker ((g + 1) * ban) ban wn = (currentWorker (g * ban) ban wn + 1) % wn := by
  have hdiv : (g * ban + k) / ban = g := by
    rw [Nat.mul_comm g ban, Nat.mul_add_div (by omega), Nat.div_eq_of_lt hk]
    omega
  constructor
  · unfold currentWorker
    rw [hdiv]
  · unfold currentWorker
    have h1 : ((g + 1) * ban) / ban = g + 1 := by
      rw [Nat.mul_comm (g + 1) ban, Nat.mul_div_cancel_left _ (by omega)]
    have h2 : (g * ban) / ban = g := by
      rw [Nat.mul_comm g ban, Nat.mul_div_cancel_left _ (by omega)]
    rw [h1, h2]
    exact ((Nat.mod_modEq g wn).add_right 1).symm

/-- Witness for C4 at `ban = 2`, `wn = 3`, `g = 4`, `k = 1`. -/
theorem currentWorker_round_robin_witness :
    currentWorker (4 * 2 + 1) 2 3 = 4 % 3 :=
  (currentWorker_round_robin 2 3 4 1 (by decide) (by decide)).1

/-- C9: dividing the loss in place by `batch_accumulate_num` and
multiplying the recorded value by `batch_accumulate_num` is an exact
round-trip, so the recorded per-batch loss equals the original criterion
loss and is independent of `batch_accumulate_num`. -/
theorem recordedLoss_roundtrip (loss : ℚ) (ban : Nat) (hban : 1 ≤ ban) :
    recordedLoss loss ban = loss := by
  unfold recordedLoss lossAfterDiv
  have hb : ((ban : ℚ)) ≠ 0 := by
    exact_mod_cast (by omega : ban ≠ 0)
  field_simp

/-- Witness for C9 at `loss = 7/2`, `ban = 3`. -/
theorem recordedLoss_roundtrip_witness :
    1 ≤ 3 ∧ recordedLoss (7 / 2) 3 = 7 / 2 :=
  ⟨by decide, recordedLoss_roundtrip (7 / 2) 3 (by decide)⟩

/-- C10: after `reset`, `sum = count = avg = 0`; after any sequence of
`update(val_i, n_i)` calls with every `n_i ≥ 1`, `sum` is the total of
`val_i * n_i`, `count` is the total of `n_i`, and `avg = sum / count`. -/
theorem averageMeter_invariant (l : List (ℚ × Nat)) (hn : ∀ p ∈ l, 1 ≤ p.2) :
    AverageMeter.reset.sum = 0 ∧ AverageMeter.reset.count = 0 ∧ AverageMeter.reset.avg = 0
      ∧ (AverageMeter.reset.updates l).sum = (l.map (fun p => p.1 * (p.2 : ℚ))).sum
      ∧ (AverageMeter.reset.updates l).count = (l.map (fun p => p.2)).sum
      ∧ (AverageMeter.reset.updates l).avg
          = (AverageMeter.reset.updates l).sum / ((AverageMeter.reset.updates l).count : ℚ) := by
  refine ⟨rfl, rfl, rfl, ?_, ?_, ?_⟩
  · rw [AverageMeter.sum_updates]
    simp [AverageMeter.reset]
  · rw [AverageMeter.count_updates]
    simp [AverageMeter.reset]
  · rw [AverageMeter.avg_updates]
    by_cases h : l = []
    · subst h
      simp [AverageMeter.updates, AverageMeter.reset]
    · simp [h]

/-- Witness for C10 on the sequence `[(3, 2), (6, 4)]`. -/
theorem averageMeter_invariant_witness :
    (AverageMeter.reset.updates [((3 : ℚ), 2), (6, 4)]).sum = 30
      ∧ (AverageMeter.reset.updates [((3 : ℚ), 2), (6, 4)]).count = 6
      ∧ (AverageMeter.reset.updates [((3 : ℚ), 2), (6, 4)]).avg = 5 := by
  have h := averageMeter_invariant [((3 : ℚ), 2), (6, 4)] (by decide)
  refine ⟨?_, ?_, ?_⟩
  · rw [h.2.2.2.1]; norm_num
  · rw [h.2.2.2.2.1]; rfl
  · rw [h.2.2.2.2.2, h.2.2.2.1, h.2.2.2.2.1]
    norm_num [List.sum_cons, List.sum_nil]

/-- C2 counterexample: `wd_pre_step` does not add `decay * weight` to
*every* parameter gradient: for a one-module `Linear` model with weight
`[1]` and bias `[1]`, both gradients zero, only the weight gradient is
decayed; the bias gradient stays `[0]` although the claimed update would
change it to `addScaled [0] [1] (1/10000) = [1/10000]`. -/
theorem wd_pre_step_skips_bias_grad :
    wd_pre_step (1 / 10000)
        [{ kind := ModuleKind.linear, weight := [1], weightGrad := [0],
           bias := [1], biasGrad := [0] }]
      = [{ kind := ModuleKind.linear, weight := [1], weightGrad := [1 / 10000],
           bias := [1], biasGrad := [0] }]
    ∧ ([0] : List ℚ) ≠ addScaled [0] [1] (1 / 10000) := by
  constructor
  · show [wd_pre_step_module (1 / 10000) _] = _
    simp [wd_pre_step_module, addScaled]
  · simp [addScaled]

/-- C2 (amended): during each training step, before clipping and before
`push`, weight decay adds `decay * weight` in place to the *weight*
gradient of every `Conv2d` and `Linear` module; all other gradients
(bias gradients, and the gradients of every other module class) and all
parameter values are left unchanged. -/
theorem wd_pre_step_decays_conv_linear_weights_only (wd : ℚ) (model : List ModuleState)
    (k : Nat) (hk : k < model.length) :
    ((wd_pre_step wd model).getD k default).weightGrad
        = (if (model.getD k default).kind = ModuleKind.conv2d
              ∨ (model.getD k default).kind = ModuleKind.linear
           then addScaled (model.getD k default).weightGrad (model.getD k default).weight wd
           else (model.getD k default).weightGrad)
      ∧ ((wd_pre_step wd model).getD k default).biasGrad = (model.getD k default).biasGrad
      ∧ ((wd_pre_step wd model).getD k default).weight = (model.getD k default).weight
      ∧ ((wd_pre_step wd model).getD k default).bias = (model.getD k default).bias := by
  have hmap : (wd_pre_step wd model).getD k default
      = wd_pre_step_module wd (model.getD k default) := by
    unfold wd_pre_step
    rw [List.getD_eq_getElem?_getD, List.getElem?_map, List.getElem?_eq_getElem hk,
      List.getD_eq_getElem?_getD, List.getElem?_eq_getElem hk]
    rfl
  rw [hmap]
  obtain ⟨kind, w, wg, b, bg⟩ := model.getD k default
  cases kind <;> simp [wd_pre_step_module]

/-- Witness for C2 (amended) on a two-module model at `k = 1`. -/
theorem wd_pre_step_decays_conv_linear_weights_only_witness :
    ((wd_pre_step (1 / 10000)
        [{ kind := ModuleKind.batchNorm2d, weight := [2], weightGrad := [3],
           bias := [4], biasGrad := [5] },
         { kind := ModuleKind.conv2d, weight := [2], weightGrad := [3],
           bias := [4], biasGrad := [5] }]).getD 1 default).biasGrad
      = (([{ kind := ModuleKind.batchNorm2d, weight := [2], weightGrad := [3],
             bias := [4], biasGrad := [5] },
           { kind := ModuleKind.conv2d, weight := [2], weightGrad := [3],
             bias := [4], biasGrad := [5] }] : List ModuleState).getD 1 default).biasGrad :=
  (wd_pre_step_decays_conv_linear_weights_only (1 / 10000) _ 1 (by decide)).2.1

/-- C3: gradient clipping is performed exactly when `grad_clip < 1000`;
for every `grad_clip` at or above the sentinel `1000`, the gradients are
returned unclipped, whatever the clipping transformation would do. -/
theorem grad_clip_sentinel (gc : ℚ) (clip : List ℚ → List ℚ) (g : List ℚ) :
    (gc < 1000 → clipGate gc clip g = clip g) ∧ (1000 ≤ gc → clipGate gc clip g = g) := by
  constructor
  · intro h
    simp [clipGate, h]
  · intro h
    simp [clipGate, not_lt.mpr h]

/-- Witness for C3 at the sentinel itself with a clipping function that
would rewrite the gradients. -/
theorem grad_clip_sentinel_witness :
    (1000 : ℚ) ≤ 1000 ∧ clipGate 1000 (fun _ => []) [5] = [5] :=
  ⟨le_refl 1000, (grad_clip_sentinel 1000 (fun _ => []) [5]).2 (le_refl 1000)⟩

/-- C5: an epoch of `G` full gradient-accumulation groups decomposes into
the concatenation of the per-group traces, and every group's trace is
exactly `pull` of the round-robin worker (first batch), then one `push`
of that worker at the group's effective iteration (after the last batch),
then the forwarding of the returned step norm to the statistics
collaborator. -/
theorem group_pull_push_once (ban wn g G : Nat) (hban : 1 ≤ ban) :
    trainTrace ban wn (G * ban) = (List.range G).flatMap (groupTrace ban wn)
      ∧ groupTrace ban wn g
          = [Event.pull (g % wn), Event.push (g % wn) g, Event.saveStepNorm] := by
  constructor
  · induction G with
    | zero => simp [trainTrace]
    | succ m ih =>
        have hmul : (m + 1) * ban = m * ban + ban := by ring
        unfold trainTrace at ih ⊢
        rw [hmul, List.range_add, List.flatMap_append, ih, List.range_succ,
          List.flatMap_append, List.flatMap_map]
        simp [groupTrace]
  · unfold groupTrace
    have hcong : ∀ k ∈ List.range ban, stepEvents ban wn (g * ban + k)
        = (if k = 0 then [Event.pull (g % wn)] else [])
            ++ (if k = ban - 1 then [Event.push (g % wn) g, Event.saveStepNorm] else []) := by
      intro k hk
      rw [List.mem_range] at hk
      exact stepEvents_in_group ban wn g k hk
    rw [List.flatMap_congr hcong, range_flatMap_first_last _ _ ban hban]
    rfl

/-- Witness for C5: two groups of two batches with three workers. -/
theorem group_pull_push_once_witness :
    trainTrace 2 3 (2 * 2) = (List.range 2).flatMap (groupTrace 2 3)
      ∧ groupTrace 2 3 4 = [Event.pull 1, Event.push 1 4, Event.saveStepNorm] := by
  have h := group_pull_push_once 2 3 4 2 (by decide)
  exact ⟨h.1, by rw [h.2]⟩

lemma readTensor_append_left (st : Store) (v : List ℚ) (b : Addr) (hb : b < st.length) :
    readTensor (st ++ [v]) b = readTensor st b := by
  unfold readTensor
  rw [List.getD_eq_getElem?_getD, List.getD_eq_getElem?_getD, List.getElem?_append_left hb]

lemma readTensor_append_self (st : Store) (v : List ℚ) :
    readTensor (st ++ [v]) st.length = v := by
  unfold readTensor
  rw [List.getD_eq_getElem?_getD, List.getElem?_append_right (le_refl st.length)]
  simp

lemma readTensor_set_ne (st : Store) (a b : Addr) (v : List ℚ) (h : a ≠ b) :
    readTensor (st.set a v) b = readTensor st b := by
  unfold readTensor
  rw [List.getD_eq_getElem?_getD, List.getD_eq_getElem?_getD, List.getElem?_set_ne h]

lemma get_params_by_cons (proj : ParamRef → Addr) (st : Store) (p : ParamRef)
    (rest : ModelRefs) :
    get_params_by proj st (p :: rest)
      = ((get_params_by proj (st ++ [readTensor st (proj p)]) rest).1,
         (p.name, st.length) :: (get_params_by proj (st ++ [readTensor st (proj p)]) rest).2) :=
  rfl

lemma get_params_by_spec (proj : ParamRef → Addr) (st : Store) (model : ModelRefs)
    (hm : ∀ p ∈ model, proj p < st.length) :
    st.length ≤ (get_params_by proj st model).1.length
      ∧ (∀ b, b < st.length →
          readTensor (get_params_by proj st model).1 b = readTensor st b)
      ∧ (∀ q ∈ (get_params_by proj st model).2, st.length ≤ q.2)
      ∧ readParameterSet (get_params_by proj st model).1 (get_params_by proj st model).2
          = model.map (fun p => (p.name, readTensor st (proj p))) := by
  induction model generalizing st with
  | nil => simp [get_params_by, readParameterSet]
  | cons p rest ih =>
      have hp : proj p < st.length := hm p (by simp)
      have hrest : ∀ q ∈ rest, proj q < (st ++ [readTensor st (proj p)]).length := by
        intro q hq
        have h2 := hm q (List.mem_cons_of_mem p hq)
        have h3 : (st ++ [readTensor st (proj p)]).length = st.length + 1 := by simp
        rw [h3]
        exact Nat.lt_succ_of_lt h2
      obtain ⟨ih1, ih2, ih3, ih4⟩ := ih (st ++ [readTensor st (proj p)]) hrest
      have hlen1 : (st ++ [readTensor st (proj p)]).length = st.length + 1 := by simp
      have hstep : st.length ≤ (st ++ [readTensor st (proj p)]).length := by omega
      rw [get_params_by_cons]
      refine ⟨?_, ?_, ?_, ?_⟩
      · exact le_trans hstep ih1
      · intro b hb
        exact (ih2 b (by omega)).trans (readTensor_append_left st _ b hb)
      · intro q hq
        rcases List.mem_cons.mp hq with hq | hq
        · subst hq
          exact Nat.le_refl st.length
        · exact le_trans hstep (ih3 q hq)
      · unfold readParameterSet
        rw [List.map_cons, List.map_cons]
        congr 1
        · dsimp only
          rw [ih2 st.length (by omega), readTensor_append_self]
        · unfold readParameterSet at ih4
          rw [ih4]
          apply List.map_congr_left
          intro q hq
          rw [readTensor_append_left st _ (proj q) (hm q (by simp [hq]))]

/-- C6 evaluation at the failing input: a checkpoint whose pickled server
was configured with `workers_num = 4` restored into a run configured with
`workers_num = 2` (and a matching parameter name set) is silently
accepted by the resume block — the adopted server keeps `workers_num = 4`
and no `IncompatibleState` failure is raised anywhere. -/
theorem resume_accepts_mismatched_server :
    resumeFromCheckpoint { workersNum := 2, modelNames := ["conv1.weight"] }
        { epoch := 5, stateDictNames := ["conv1.weight"], serverWorkersNum := 4 }
      = some { startEpoch := 5, serverWorkersNum := 4, modelNames := ["conv1.weight"] }
    ∧ (4 : Nat) ≠ 2 := by
  refine ⟨?_, by decide⟩
  rfl

/-- C7 counterexample: at `workers_num = 4`, `batch_size = 1024`,
`baseline = 256` the recomputed rate is `base_lr * sqrt(16) / 4 =
base_lr`, not `base_lr * sqrt(4) / 4 = base_lr / 2` as claimed (shown
here for `base_lr = 1`). -/
theorem scaledLr_not_half :
    scaledLr 1 4 1024 256 = 1 ∧ scaledLr 1 4 1024 256 ≠ 1 / 2 := by
  have h16 : (4 * 1024) / 256 = 16 := by norm_num
  have hs : Nat.sqrt 16 = 4 := by
    have h44 : (16 : Nat) = 4 * 4 := by norm_num
    rw [h44, Nat.sqrt_eq]
  constructor
  · unfold scaledLr
    rw [h16, hs]
    norm_num
  · unfold scaledLr
    rw [h16, hs]
    norm_num

/-- C7 (amended): the base learning rate is recomputed as
`lr * sqrt((workers_num * batch_size) // baseline) / workers_num`; for
`workers_num = 4`, `batch_size = 1024`, `baseline = 256` the argument of
the square root is `16`, so the scaled rate equals `base_lr * 4 / 4 =
base_lr`. -/
theorem scaledLr_formula (lr : ℚ) : scaledLr lr 4 1024 256 = lr := by
  unfold scaledLr
  have h16 : (4 * 1024) / 256 = 16 := by norm_num
  have hs : Nat.sqrt 16 = 4 := by
    have h44 : (16 : Nat) = 4 * 4 := by norm_num
    rw [h44, Nat.sqrt_eq]
  rw [h16, hs]
  push_cast
  ring

/-- C8: `get_model_weights` and `get_model_gradients` return dicts of
cloned tensors: any subsequent in-place mutation of a tensor that existed
before the snapshot (in particular every live weight and gradient of the
model) leaves the returned dict's values unchanged, and those values are
exactly the model's weight (resp. gradient) values at snapshot time. -/
theorem snapshot_copies_independent (st : Store) (model : ModelRefs) (a : Addr)
    (f : List ℚ → List ℚ)
    (hw : ∀ p ∈ model, p.weightAddr < st.length)
    (hg : ∀ p ∈ model, p.gradAddr < st.length)
    (ha : a < st.length) :
    (readParameterSet (mutateTensor (get_model_weights st model).1 a f)
          (get_model_weights st model).2
        = readParameterSet (get_model_weights st model).1 (get_model_weights st model).2
      ∧ readParameterSet (get_model_weights st model).1 (get_model_weights st model).2
          = model.map (fun p => (p.name, readTensor st p.weightAddr)))
    ∧ (readParameterSet (mutateTensor (get_model_gradients st model).1 a f)
          (get_model_gradients st model).2
        = readParameterSet (get_model_gradients st model).1 (get_model_gradients st model).2
      ∧ readParameterSet (get_model_gradients st model).1 (get_model_gradients st model).2
          = model.map (fun p => (p.name, readTensor st (p.gradAddr)))) := by
  have key : ∀ proj : ParamRef → Addr, (∀ p ∈ model, proj p < st.length) →
      readParameterSet (mutateTensor (get_params_by proj st model).1 a f)
          (get_params_by proj st model).2
        = readParameterSet (get_params_by proj st model).1 (get_params_by proj st model).2
      ∧ readParameterSet (get_params_by proj st model).1 (get_params_by proj st model).2
          = model.map (fun p => (p.name, readTensor st (proj p))) := by
    intro proj hproj
    obtain ⟨h1, h2, h3, h4⟩ := get_params_by_spec proj st model hproj
    refine ⟨?_, h4⟩
    unfold readParameterSet mutateTensor
    apply List.map_congr_left
    intro q hq
    have hge := h3 q hq
    have hne : a ≠ q.2 := Nat.ne_of_lt (lt_of_lt_of_le ha hge)
    simp [readTensor_set_ne _ a q.2 _ hne]
  exact ⟨key (fun p => p.weightAddr) hw, key (fun p => p.gradAddr) hg⟩

/-- Witness for C8: one parameter whose weight lives at address 0 and
gradient at address 1; overwriting the live weight in place does not
change the snapshot. -/
theorem snapshot_copies_independent_witness :
    readParameterSet
        (mutateTensor
          (get_model_weights [[1], [2]] [{ name := "w", weightAddr := 0, gradAddr := 1 }]).1
          0 (fun _ => [99]))
        (get_model_weights [[1], [2]] [{ name := "w", weightAddr := 0, gradAddr := 1 }]).2
      = readParameterSet
          (get_model_weights [[1], [2]] [{ name := "w", weightAddr := 0, gradAddr := 1 }]).1
          (get_model_weights [[1], [2]] [{ name := "w", weightAddr := 0, gradAddr := 1 }]).2 :=
  ((snapshot_copies_independent [[1], [2]] [{ name := "w", weightAddr := 0, gradAddr := 1 }]
      0 (fun _ => [99]) (by decide) (by decide) (by decide)).1).1
